import Mathlib

/-!
Verification of the agentic-contracts SDK (grounding engine, receipt ledger,
snapshot codec) against its natural-language specification.

Shallow embedding conventions:
- Rust `String` / `&str` values are modelled as `List Char` (`Str` below);
  `str::to_lowercase` is modelled character-wise with `Char.toLower`
  (the claims under study never depend on multi-character Unicode lowering).
- Rust `f64` scores are modelled as `ℚ`; every comparison appearing in the
  claims happens at the exact values 0, 1/2, 4/5 and 1, where IEEE rounding
  cannot flip an outcome.
- `Utc::now()` timestamps, the random UUIDs of `ContextId::new` /
  `ReceiptId::new`, and the fresh ids of `start_session` are nondeterministic
  inputs; they are threaded as explicit `now` / `fresh` parameters.
- `Mutex` state is modelled by explicit state passing; event emission
  (`EventManager::emit`) is not modelled (spec §1 places event plumbing out
  of scope and no claim mentions events).
- `blake3::hash` is implemented concretely below (full compression function,
  chunk chaining and the level-wise parent tree).
-/

/-- Rust string slices are modelled as lists of characters. -/
abbrev Str := List Char

/-- Models `str::to_lowercase` (character-wise ASCII lowering). -/
def lowerStr (s : Str) : Str := s.map Char.toLower

/-- Worker for `split_whitespace`: `acc` holds the (reversed) current word. -/
def splitWsAux : List Char → List Char → List (List Char)
  | [], acc => if acc.isEmpty then [] else [acc.reverse]
  | c :: cs, acc =>
      if c.isWhitespace then
        if acc.isEmpty then splitWsAux cs []
        else acc.reverse :: splitWsAux cs []
      else splitWsAux cs (c :: acc)

/-- Models `str::split_whitespace`: maximal runs of non-whitespace characters. -/
def splitWs (s : Str) : List Str := splitWsAux s []

/-- Models `str::contains(&str)`: substring (contiguous) containment. -/
def containsSub (needle : Str) : Str → Bool
  | [] => needle.isPrefixOf []
  | c :: t => needle.isPrefixOf (c :: t) || containsSub needle t

/-- Addition modulo 2^32 (u32 wrapping add). -/
def add32 (a b : Nat) : Nat := (a + b) % 4294967296

/-- Right rotation of a 32-bit word by `n` bits. -/
def rotr32 (x n : Nat) : Nat :=
  ((x >>> n) ||| (x <<< (32 - n))) % 4294967296

/-- The BLAKE3 initialization vector (the SHA-256 IV words). -/
def b3IV : List Nat :=
  [0x6A09E667, 0xBB67AE85, 0x3C6EF372, 0xA54FF53A,
   0x510E527F, 0x9B05688C, 0x1F83D9AB, 0x5BE0CD19]

def chunkStartFlag : Nat := 1
def chunkEndFlag : Nat := 2
def parentFlag : Nat := 4
def rootFlag : Nat := 8

/-- The BLAKE3 message word permutation applied between rounds. -/
def b3Permute (m : List Nat) : List Nat :=
  [m.getD 2 0, m.getD 6 0, m.getD 3 0, m.getD 10 0,
   m.getD 7 0, m.getD 0 0, m.getD 4 0, m.getD 13 0,
   m.getD 1 0, m.getD 11 0, m.getD 12 0, m.getD 5 0,
   m.getD 9 0, m.getD 14 0, m.getD 15 0, m.getD 8 0]

/-- The BLAKE3 quarter-round `G`, acting on state positions `a b c d`. -/
def b3G (v : List Nat) (a b c d mx my : Nat) : List Nat :=
  let va := add32 (add32 (v.getD a 0) (v.getD b 0)) mx
  let vd := rotr32 ((v.getD d 0) ^^^ va) 16
  let vc := add32 (v.getD c 0) vd
  let vb := rotr32 ((v.getD b 0) ^^^ vc) 12
  let va' := add32 (add32 va vb) my
  let vd' := rotr32 (vd ^^^ va') 8
  let vc' := add32 vc vd'
  let vb' := rotr32 (vb ^^^ vc') 7
  ((((v.set a va').set b vb').set c vc').set d vd')

/-- One BLAKE3 round: four column mixes then four diagonal mixes. -/
def b3Round (v m : List Nat) : List Nat :=
  let v1 := b3G v 0 4 8 12 (m.getD 0 0) (m.getD 1 0)
  let v2 := b3G v1 1 5 9 13 (m.getD 2 0) (m.getD 3 0)
  let v3 := b3G v2 2 6 10 14 (m.getD 4 0) (m.getD 5 0)
  let v4 := b3G v3 3 7 11 15 (m.getD 6 0) (m.getD 7 0)
  let v5 := b3G v4 0 5 10 15 (m.getD 8 0) (m.getD 9 0)
  let v6 := b3G v5 1 6 11 12 (m.getD 10 0) (m.getD 11 0)
  let v7 := b3G v6 2 7 8 13 (m.getD 12 0) (m.getD 13 0)
  b3G v7 3 4 9 14 (m.getD 14 0) (m.getD 15 0)

/-- The BLAKE3 compression function; returns the 16-word output. -/
def b3Compress (cv block : List Nat) (counter blockLen flags : Nat) : List Nat :=
  let v0 := cv ++ [b3IV.getD 0 0, b3IV.getD 1 0, b3IV.getD 2 0, b3IV.getD 3 0,
                   counter % 4294967296, (counter / 4294967296) % 4294967296,
                   blockLen, flags]
  let v1 := b3Round v0 block
  let m1 := b3Permute block
  let v2 := b3Round v1 m1
  let m2 := b3Permute m1
  let v3 := b3Round v2 m2
  let m3 := b3Permute m2
  let v4 := b3Round v3 m3
  let m4 := b3Permute m3
  let v5 := b3Round v4 m4
  let m5 := b3Permute m4
  let v6 := b3Round v5 m5
  let m6 := b3Permute m5
  let v := b3Round v6 m6
  (List.range 16).map (fun i =>
    if i < 8 then (v.getD i 0) ^^^ (v.getD (i + 8) 0)
    else (v.getD i 0) ^^^ (cv.getD (i - 8) 0))

/-- Little-endian 32-bit words of a 64-byte block (zero padded). -/
def b3WordsOfBlock (block : List Nat) : List Nat :=
  (List.range 16).map (fun i =>
    (block.getD (4 * i) 0) + 256 * (block.getD (4 * i + 1) 0) +
    65536 * (block.getD (4 * i + 2) 0) + 16777216 * (block.getD (4 * i + 3) 0))

/-- Split a byte list into pieces of `sz` bytes (structural fuel recursion so
that the kernel can evaluate it; `fuel` is instantiated with the length). -/
def chunked (sz : Nat) : Nat → List Nat → List (List Nat)
  | 0, data => [data]
  | fuel + 1, data =>
      if data.length ≤ sz then [data]
      else data.take sz :: chunked sz fuel (data.drop sz)

/-- Split a chunk (at most 1024 bytes) into 64-byte blocks; an empty chunk
yields one empty block, as in the reference implementation. -/
def b3Blocks (chunk : List Nat) : List (List Nat) :=
  chunked 64 chunk.length chunk

/-- Chain the blocks of one chunk; `extra` is OR-ed into the final block's
flags (`rootFlag` when the chunk is the whole tree). Returns the full 16-word
output of the last compression. -/
def b3ChunkBlocks (cv : List Nat) (counter : Nat) (first : Bool)
    (extra : Nat) : List (List Nat) → List Nat
  | [] => cv ++ cv
  | [b] =>
      let flags := (if first then chunkStartFlag else 0) + chunkEndFlag + extra
      b3Compress cv (b3WordsOfBlock b) counter b.length flags
  | b :: rest =>
      let flags := if first then chunkStartFlag else 0
      let out := b3Compress cv (b3WordsOfBlock b) counter b.length flags
      b3ChunkBlocks (out.take 8) counter false extra rest

/-- Split the input into 1024-byte chunks; empty input gives one empty chunk. -/
def b3Chunks (data : List Nat) : List (List Nat) :=
  chunked 1024 data.length data

/-- Parent node compression over two child chaining values. -/
def b3Parent (l r : List Nat) (extra : Nat) : List Nat :=
  b3Compress b3IV (l ++ r) 0 64 (parentFlag + extra)

/-- Combine adjacent chaining values pairwise (odd last one is promoted). -/
def b3PairUp : List (List Nat) → List (List Nat)
  | a :: b :: rest => (b3Parent a b 0).take 8 :: b3PairUp rest
  | l => l

/-- Reduce the chunk chaining values to the 16-word root output. -/
def b3Condense (fuel : Nat) (cvs : List (List Nat)) : List Nat :=
  match fuel with
  | 0 => []
  | fuel + 1 =>
      match cvs with
      | [] => []
      | [cv] => cv ++ cv
      | [a, b] => b3Parent a b rootFlag
      | more => b3Condense fuel (b3PairUp more)

/-- Little-endian bytes of a list of 32-bit words. -/
def b3BytesOfWords (ws : List Nat) : List Nat :=
  ws.flatMap (fun w => [w % 256, (w / 256) % 256, (w / 65536) % 256, (w / 16777216) % 256])

/-- Models `blake3::hash`: the 32-byte BLAKE3 digest of `data`. -/
def blake3Hash (data : List Nat) : List Nat :=
  let chunks := b3Chunks data
  match chunks with
  | [c] => b3BytesOfWords ((b3ChunkBlocks b3IV 0 true rootFlag (b3Blocks c)).take 8)
  | cs =>
      let cvs := cs.enum.map (fun p =>
        (b3ChunkBlocks b3IV p.1 true 0 (b3Blocks p.2)).take 8)
      b3BytesOfWords ((b3Condense cvs.length cvs).take 8)

/-- Models `serde_json::Value`; floating point numbers do not occur in any
value the claims touch and are not modelled. -/
inductive JsonM where
  | null : JsonM
  | bool (b : Bool) : JsonM
  | int (n : Int) : JsonM
  | str (s : Str) : JsonM
  | arr (xs : List JsonM) : JsonM
  | obj (kvs : List (Str × JsonM)) : JsonM

/-- Models the `Metadata` alias `HashMap<String, serde_json::Value>`
(association list representation). -/
abbrev MetadataM := List (Str × JsonM)

/-- Models `errors.rs` `Severity`. -/
inductive SeverityM where
  | info | warning | error | fatal
deriving DecidableEq

/-- Models `errors.rs` `ErrorCode` (all variants). -/
inductive ErrorCodeM where
  | notFound | invalidInput | permissionDenied | storageError | networkError
  | timeout | resourceExhausted | internal | notImplemented | contextNotFound
  | evidenceNotFound | groundingFailed | versionMismatch | checksumMismatch
  | alreadyExists | invalidState | memoryError | visionError | codebaseError
  | identityError | timeError | contractError
deriving DecidableEq

/-- Models `ErrorCode::default_severity`. -/
def defaultSeverity : ErrorCodeM → SeverityM
  | .internal | .checksumMismatch => .fatal
  | .permissionDenied | .versionMismatch => .error
  | .notFound | .invalidInput | .alreadyExists => .error
  | .timeout | .networkError | .storageError => .error
  | .resourceExhausted => .warning
  | _ => .error

/-- Models `ErrorCode::is_typically_recoverable`. -/
def isTypicallyRecoverable : ErrorCodeM → Bool
  | .internal | .checksumMismatch | .versionMismatch => false
  | .notFound | .evidenceNotFound => true
  | .timeout | .networkError | .storageError => true
  | .resourceExhausted => true
  | .invalidInput | .invalidState => true
  | .alreadyExists => true
  | _ => true

/-- Models `errors.rs` `SuggestedAction`. -/
inductive SuggestedActionM where
  | retry (afterMs : Nat)
  | alternative (description : Str)
  | userAction (description : Str)
  | restart
  | checkConfig (key : Str)
  | reportBug
deriving DecidableEq

/-- Models `errors.rs` `SisterError`. -/
structure SisterErrorM where
  code : ErrorCodeM
  severity : SeverityM
  message : Str
  context : Option MetadataM
  recoverable : Bool
  suggestedAction : Option SuggestedActionM

/-- Models `SisterError::new` (severity and recoverability derived from the code). -/
def SisterErrorM.new (code : ErrorCodeM) (message : Str) : SisterErrorM :=
  { code := code
    severity := defaultSeverity code
    message := message
    context := none
    recoverable := isTypicallyRecoverable code
    suggestedAction := none }

/-- Models `types.rs` `Version` (three `u8` components). -/
structure VersionM where
  major : Nat
  minor : Nat
  patch : Nat
deriving DecidableEq

/-- Models `Version::is_compatible_with`: same major version. -/
def VersionM.isCompatibleWith (v other : VersionM) : Bool :=
  v.major == other.major

/-- Models `Version::can_read`: a reader can read files whose major version
is at most its own. -/
def VersionM.canRead (v fileVersion : VersionM) : Bool :=
  decide (fileVersion.major ≤ v.major)

/-- Models `types.rs` `SisterType` (all variants). -/
inductive SisterTypeM where
  | memory | vision | codebase | identity | time | contract
  | comm | planning | cognition | reality
  | attention | affect | motivation | learning | bond | meaning
  | wonder | imagination | conscience | meta | duration
deriving DecidableEq

/-- Big-endian list of the low `k` base-16 digits of `n` (structural, so the
kernel can evaluate it). -/
def nibblesAux : Nat → Nat → List Nat
  | 0, _ => []
  | k + 1, n => nibblesAux k (n / 16) ++ [n % 16]

/-- Lowercase hex digit character for a nibble, as printed by the `uuid` crate. -/
def hexDigitChar (d : Nat) : Char :=
  if d < 10 then Char.ofNat (48 + d) else Char.ofNat (87 + d)

/-- Hex digit value of a character; `uuid::Uuid::parse_str` is case-insensitive. -/
def hexDigitVal (c : Char) : Option Nat :=
  if 48 ≤ c.toNat ∧ c.toNat ≤ 57 then some (c.toNat - 48)
  else if 97 ≤ c.toNat ∧ c.toNat ≤ 102 then some (c.toNat - 87)
  else if 65 ≤ c.toNat ∧ c.toNat ≤ 70 then some (c.toNat - 55)
  else none

/-- Fold hex digit characters into a value; `none` on any non-hex character. -/
def parseHexAux : List Char → Nat → Option Nat
  | [], a => some a
  | c :: t, a =>
      match hexDigitVal c with
      | some d => parseHexAux t (16 * a + d)
      | none => none

/-- Models `types.rs` `UniqueId` (a UUID): its 128-bit value. -/
structure UniqueIdM where
  val : Nat
deriving DecidableEq

/-- Models `context.rs` `ContextId` (a newtype over `UniqueId`). -/
structure ContextIdM where
  uid : UniqueIdM
deriving DecidableEq

/-- Models `ContextId::default_context` (`UniqueId::nil`). -/
def ContextIdM.defaultContext : ContextIdM := ⟨⟨0⟩⟩

/-- The 36 characters of the hyphenated lowercase UUID rendering used by
`Display for UniqueId` (the `uuid` crate's canonical format). -/
def uuidChars (n : Nat) : List Char :=
  let cs := (nibblesAux 32 n).map hexDigitChar
  cs.take 8 ++ (('-' :: (cs.drop 8).take 4) ++ (('-' :: (cs.drop 12).take 4) ++
    (('-' :: (cs.drop 16).take 4) ++ ('-' :: cs.drop 20))))

/-- Models `Display for ContextId`: the string `ctx_<uuid>`. -/
def ctxDisplay (id : ContextIdM) : Str :=
  "ctx_".toList ++ uuidChars id.uid.val

/-- Expect a literal dash and return what follows it. -/
def afterDash : List Char → Option (List Char)
  | '-' :: t => some t
  | _ => none

/-- Models `uuid::Uuid::parse_str` on its hyphenated (8-4-4-4-12) and simple
(32 hex characters) formats; the braced and urn formats the crate also
accepts never occur in this codebase and are not modelled. -/
def parseUuidM (l : List Char) : Option Nat :=
  if l.length = 32 then parseHexAux l 0
  else if l.length = 36 then
    match afterDash (l.drop 8) with
    | none => none
    | some r1 =>
        match afterDash (r1.drop 4) with
        | none => none
        | some r2 =>
            match afterDash (r2.drop 4) with
            | none => none
            | some r3 =>
                match afterDash (r3.drop 4) with
                | none => none
                | some g5 =>
                    parseHexAux (l.take 8 ++ (r1.take 4 ++ (r2.take 4 ++
                      (r3.take 4 ++ g5)))) 0
  else none

/-- Models `impl From<&str> for ContextId`: strip a `ctx_` prefix, parse the
UUID, and fall back to a fresh random id (`fresh` models `Self::new()`). -/
def ctxFromStr (s : Str) (fresh : Nat) : ContextIdM :=
  let s' := if ("ctx_".toList).isPrefixOf s then s.drop 4 else s
  match parseUuidM s' with
  | some v => ⟨⟨v⟩⟩
  | none => ⟨⟨fresh⟩⟩

/-- Models `context.rs` `ContextSummary`. -/
structure ContextSummaryM where
  id : ContextIdM
  name : Str
  createdAt : Nat
  updatedAt : Nat
  itemCount : Nat
  sizeBytes : Nat

/-- Models `context.rs` `ContextInfo`. -/
structure ContextInfoM where
  id : ContextIdM
  name : Str
  createdAt : Nat
  updatedAt : Nat
  itemCount : Nat
  sizeBytes : Nat
  metadata : MetadataM

/-- Models `context.rs` `ContextSnapshot`; `data` and `checksum` are byte lists. -/
structure ContextSnapshotM where
  sisterType : SisterTypeM
  version : VersionM
  contextInfo : ContextInfoM
  data : List Nat
  checksum : List Nat
  snapshotAt : Nat

/-- Models `ContextSnapshot::verify`: recompute the BLAKE3 digest of `data`
and compare it byte-for-byte with `checksum`. -/
def ContextSnapshotM.verify (s : ContextSnapshotM) : Bool :=
  blake3Hash s.data == s.checksum

/-- Decimal rendering of a natural number (models `format!` of an integer). -/
def natToStr (n : Nat) : Str := (Nat.repr n).toList

/-- UTF-8 encoding of one character. -/
def utf8Bytes (c : Char) : List Nat :=
  let n := c.toNat
  if n < 128 then [n]
  else if n < 2048 then [192 + n / 64, 128 + n % 64]
  else if n < 65536 then [224 + n / 4096, 128 + (n / 64) % 64, 128 + n % 64]
  else [240 + n / 262144, 128 + (n / 4096) % 64, 128 + (n / 64) % 64, 128 + n % 64]

/-- Bytes `serde_json` emits for one character inside a JSON string. -/
def jsonEscapeChar (c : Char) : List Nat :=
  if c = '"' then [92, 34]
  else if c = '\\' then [92, 92]
  else if c.toNat < 32 then
    match c.toNat with
    | 8 => [92, 98]
    | 9 => [92, 116]
    | 10 => [92, 110]
    | 12 => [92, 102]
    | 13 => [92, 114]
    | k => [92, 117, 48, 48, (hexDigitChar (k / 16)).toNat, (hexDigitChar (k % 16)).toNat]
  else utf8Bytes c

/-- Bytes of a JSON string literal. -/
def jsonStrBytes (s : Str) : List Nat := 34 :: (s.flatMap jsonEscapeChar ++ [34])

/-- ASCII bytes of a decimal number. -/
def natBytes (n : Nat) : List Nat := (natToStr n).map Char.toNat

/-- Models `serde_json::to_vec` of one `(u64, String)` node: `[id,"content"]`. -/
def jsonNodeBytes (p : Nat × Str) : List Nat :=
  91 :: (natBytes p.1 ++ [44] ++ jsonStrBytes p.2 ++ [93])

/-- Models `serde_json::to_vec` of `Vec<(u64, String)>`: a compact JSON array. -/
def jsonNodesBytes (nodes : List (Nat × Str)) : List Nat :=
  91 :: (List.intercalate [44] (nodes.map jsonNodeBytes) ++ [93])

/-- Models `grounding.rs` `GroundingStatus`; `partialSupport` renders the
source's `Partial` variant (`partial` is not a usable Lean identifier). -/
inductive GroundingStatusM where
  | verified | partialSupport | ungrounded
deriving DecidableEq

/-- Models `grounding.rs` `GroundingEvidence`; `score` (`f64`) is a rational. -/
structure GroundingEvidenceM where
  evidenceType : Str
  id : Str
  score : ℚ
  summary : Str
  data : MetadataM

/-- Models `GroundingEvidence::new`. -/
def GroundingEvidenceM.new (evidenceType id : Str) (score : ℚ) (summary : Str) :
    GroundingEvidenceM :=
  { evidenceType := evidenceType, id := id, score := score,
    summary := summary, data := [] }

/-- Models `grounding.rs` `GroundingResult`; `confidence` (`f64`) is a
rational and the `Utc::now()` timestamp is an explicit `Nat`. -/
structure GroundingResultM where
  status : GroundingStatusM
  claim : Str
  confidence : ℚ
  evidence : List GroundingEvidenceM
  reason : Str
  suggestions : List Str
  timestamp : Nat

/-- Models `GroundingResult::verified`. -/
def GroundingResultM.mkVerified (claim : Str) (confidence : ℚ) (now : Nat) :
    GroundingResultM :=
  { status := .verified, claim := claim, confidence := confidence,
    evidence := [], reason := [], suggestions := [], timestamp := now }

/-- Models `GroundingResult::ungrounded` (confidence forced to `0.0`). -/
def GroundingResultM.mkUngrounded (claim reason : Str) (now : Nat) :
    GroundingResultM :=
  { status := .ungrounded, claim := claim, confidence := 0,
    evidence := [], reason := reason, suggestions := [], timestamp := now }

/-- Models `GroundingResult::partial`. -/
def GroundingResultM.mkPartialSupport (claim : Str) (confidence : ℚ) (now : Nat) :
    GroundingResultM :=
  { status := .partialSupport, claim := claim, confidence := confidence,
    evidence := [], reason := [], suggestions := [], timestamp := now }

/-- Models `GroundingResult::with_evidence`. -/
def GroundingResultM.withEvidence (r : GroundingResultM)
    (evidence : List GroundingEvidenceM) : GroundingResultM :=
  { r with evidence := evidence }

/-- Models `GroundingResult::with_suggestions`. -/
def GroundingResultM.withSuggestions (r : GroundingResultM)
    (suggestions : List Str) : GroundingResultM :=
  { r with suggestions := suggestions }

/-- Models `GroundingResult::with_reason`. -/
def GroundingResultM.withReason (r : GroundingResultM) (reason : Str) :
    GroundingResultM :=
  { r with reason := reason }

/-- Models `GroundingResult::is_strongly_grounded` (`confidence > 0.8`,
the literal `0.8` rendered exactly as `4/5`). -/
def GroundingResultM.isStronglyGrounded (r : GroundingResultM) : Bool :=
  r.status == .verified && decide ((4 : ℚ)/5 < r.confidence)

/-- Models `GroundingResult::is_weakly_grounded` (`confidence > 0.5`). -/
def GroundingResultM.isWeaklyGrounded (r : GroundingResultM) : Bool :=
  !(r.status == .ungrounded) && decide ((1 : ℚ)/2 < r.confidence)

/-- Models the mutable state of `MockMemory` (`tests/mock_sisters.rs`);
`start_time` and the event buffer are not modelled (no claim touches them). -/
structure MemoryState where
  sessionId : Option ContextIdM
  sessions : List ContextSummaryM
  nodes : List (Nat × Str)
  nextId : Nat

/-- The freshly initialised `MockMemory` (`MockMemory::new`). -/
def initMemory : MemoryState :=
  { sessionId := none, sessions := [], nodes := [], nextId := 1 }

/-- Models `MockMemory::add_node`. -/
def memoryAddNode (st : MemoryState) (content : Str) : Nat × MemoryState :=
  (st.nextId,
   { st with nodes := st.nodes ++ [(st.nextId, content)], nextId := st.nextId + 1 })

/-- The corpus items of `MockMemory::ground` whose lowercased content contains
the lowercased claim (the `matches` vector in the source). -/
def matchingNodes (nodes : List (Nat × Str)) (claim : Str) : List (Nat × Str) :=
  nodes.filter (fun p => containsSub (lowerStr claim) (lowerStr p.2))

/-- The per-item coverage ratio computed inside `MockMemory::ground`:
claim words found in the item over total claim words (`.max(1)` guards the
empty-claim denominator). -/
def coverageRatio (claimLower content : Str) : ℚ :=
  let claimWords := splitWs claimLower
  let contentLower := lowerStr content
  let matched := claimWords.countP (fun w => containsSub w contentLower)
  (matched : ℚ) / (max claimWords.length 1 : ℚ)

/-- Models `MockMemory::ground` (`tests/mock_sisters.rs:176`); the source's
early-return `if` cascade is rendered as nested `if` expressions and the
threshold literal `0.5` exactly as `1/2`. -/
def memoryGround (st : MemoryState) (claim : Str) (now : Nat) :
    Except SisterErrorM GroundingResultM :=
  let claimLower := lowerStr claim
  let found := matchingNodes st.nodes claim
  if found.isEmpty then
    .ok ((GroundingResultM.mkUngrounded claim ("No matching memories found".toList) now).withSuggestions
          ((st.nodes.take 3).map (fun p => p.2)))
  else
    let bestScore := (found.map (fun p => coverageRatio claimLower p.2)).foldl max 0
    let evidence := found.map (fun p =>
      GroundingEvidenceM.new ("memory_node".toList)
        ("node_".toList ++ natToStr p.1) bestScore p.2)
    if (1 : ℚ)/2 < bestScore then
      .ok (((GroundingResultM.mkVerified claim bestScore now).withEvidence evidence).withReason
            ("Found matching memories".toList))
    else
      .ok (((GroundingResultM.mkPartialSupport claim bestScore now).withEvidence evidence).withReason
            ("Some evidence found".toList))

/-- Models `MockMemory::start_session`; `fresh` is the random `ContextId::new()`. -/
def memoryStartSession (st : MemoryState) (name : Str) (fresh : ContextIdM)
    (now : Nat) : ContextIdM × MemoryState :=
  let summary : ContextSummaryM :=
    { id := fresh, name := name, createdAt := now, updatedAt := now,
      itemCount := 0, sizeBytes := 0 }
  (fresh, { st with sessionId := some fresh, sessions := st.sessions ++ [summary] })

/-- Models `MockMemory::current_session_info`. -/
def memoryCurrentSessionInfo (st : MemoryState) (now : Nat) :
    Except SisterErrorM ContextInfoM :=
  match st.sessionId with
  | none => .error (SisterErrorM.new .invalidState ("No active session".toList))
  | some id =>
      .ok { id := id, name := "active".toList, createdAt := now,
            updatedAt := now, itemCount := st.nodes.length, sizeBytes := 0,
            metadata := [] }

/-- Models `MockMemory::export_session`: serialize the nodes, compute the
BLAKE3 checksum and package the snapshot (the `serde_json` serialization of
`Vec<(u64, String)>` cannot fail, so its error arm is unreachable). -/
def memoryExportSession (st : MemoryState) (now : Nat) :
    Except SisterErrorM ContextSnapshotM :=
  match memoryCurrentSessionInfo st now with
  | .error e => .error e
  | .ok info =>
      let data := jsonNodesBytes st.nodes
      .ok { sisterType := .memory, version := ⟨0, 2, 0⟩, contextInfo := info,
            data := data, checksum := blake3Hash data, snapshotAt := now }

/-- Models `MockMemory::import_session`: reject on checksum failure, else
start a session named after the snapshot; returns the result together with
the (possibly unchanged) state. -/
def memoryImportSession (st : MemoryState) (snap : ContextSnapshotM)
    (fresh : ContextIdM) (now : Nat) :
    (Except SisterErrorM ContextIdM) × MemoryState :=
  if !snap.verify then
    (.error (SisterErrorM.new .checksumMismatch
      ("Snapshot checksum verification failed".toList)), st)
  else
    let (id, st') := memoryStartSession st snap.contextInfo.name fresh now
    (.ok id, st')

/-- Models `MockMemory::version` (likewise `MockIdentity::version`): `0.2.0`. -/
def mockSisterVersion : VersionM := ⟨0, 2, 0⟩

/-- Models `receipts.rs` `ActionOutcome`; `partialOutcome` renders the
source's `Partial` variant. -/
inductive ActionOutcomeM where
  | success (result : Option JsonM)
  | failure (errorCode errorMessage : Str)
  | partialOutcome (result : Option JsonM) (warnings : List Str)

/-- Models `ActionOutcome::is_success`. -/
def ActionOutcomeM.isSuccess : ActionOutcomeM → Bool
  | .success _ => true
  | _ => false

/-- Models `ActionOutcome::is_failure`. -/
def ActionOutcomeM.isFailure : ActionOutcomeM → Bool
  | .failure _ _ => true
  | _ => false

/-- Models `receipts.rs` `ActionRecord`. -/
structure ActionRecordM where
  sisterType : SisterTypeM
  actionType : Str
  parameters : MetadataM
  outcome : ActionOutcomeM
  evidenceIds : List Str
  contextId : Option ContextIdM
  timestamp : Nat

/-- Models `ActionRecord::new`. -/
def ActionRecordM.new (sisterType : SisterTypeM) (actionType : Str)
    (outcome : ActionOutcomeM) (now : Nat) : ActionRecordM :=
  { sisterType := sisterType, actionType := actionType, parameters := [],
    outcome := outcome, evidenceIds := [], contextId := none, timestamp := now }

/-- Models `receipts.rs` `Receipt`; the `ReceiptId` UUID is its 128-bit value
and `chain_position : u64` is a `Nat` (positions never approach `2^64`). -/
structure ReceiptM where
  id : Nat
  action : ActionRecordM
  signature : Str
  chainPosition : Nat
  previousHash : Str
  hash : Str
  createdAt : Nat

/-- Models `receipts.rs` `ReceiptFilter`. -/
structure ReceiptFilterM where
  sisterType : Option SisterTypeM
  actionType : Option Str
  contextId : Option ContextIdM
  after : Option Nat
  before : Option Nat
  outcome : Option Str
  limit : Option Nat
  offset : Option Nat

/-- Models `ReceiptFilter::new` / `Default`: all fields `None`. -/
def ReceiptFilterM.new : ReceiptFilterM :=
  { sisterType := none, actionType := none, contextId := none, after := none,
    before := none, outcome := none, limit := none, offset := none }

/-- Models the mutable state of `MockIdentity` (`tests/mock_sisters.rs`). -/
structure IdentityState where
  sessionId : Option ContextIdM
  receipts : List ReceiptM
  chainPosition : Nat

/-- The freshly initialised `MockIdentity` (`MockIdentity::new`): the chain
position counter starts at `0`. -/
def initIdentity : IdentityState :=
  { sessionId := none, receipts := [], chainPosition := 0 }

/-- Models `MockIdentity::create_receipt`; `rid` is the random
`ReceiptId::new()` and `now` the `Utc::now()` timestamp. -/
def createReceipt (st : IdentityState) (action : ActionRecordM) (rid : Nat)
    (now : Nat) : Nat × IdentityState :=
  let position := st.chainPosition + 1
  let receipt : ReceiptM :=
    { id := rid, action := action,
      signature := "mock_ed25519_signature".toList,
      chainPosition := position,
      previousHash := "0000000000000000".toList,
      hash := "hash_".toList ++ natToStr position,
      createdAt := now }
  (rid, { st with receipts := st.receipts ++ [receipt],
                  chainPosition := position })

/-- The filter closure of `MockIdentity::list_receipts`: the source's
early-return `if` chain over `sister_type` and `action_type` (the remaining
filter fields are never consulted there). -/
def mockReceiptPasses (f : ReceiptFilterM) (r : ReceiptM) : Bool :=
  (match f.sisterType with
   | some st => r.action.sisterType == st
   | none => true) &&
  (match f.actionType with
   | some a => r.action.actionType == a
   | none => true)

/-- Models `MockIdentity::list_receipts`: filter, then `truncate(limit)`. -/
def listReceipts (st : IdentityState) (f : ReceiptFilterM) : List ReceiptM :=
  let results := st.receipts.filter (mockReceiptPasses f)
  match f.limit with
  | some n => results.take n
  | none => results

/-- One step of a `create_receipt` call sequence (drops the returned id). -/
def createReceiptStep (st : IdentityState) (call : ActionRecordM × Nat × Nat) :
    IdentityState :=
  (createReceipt st call.1 call.2.1 call.2.2).2

/-- Modelled from the spec (claim C7 wording): flipping a single byte of a
payload, rendered as the bitwise complement of the byte at index `i`. -/
def flipByteAt (data : List Nat) (i : Nat) : List Nat :=
  data.set i ((data.getD i 0) ^^^ 255)

/-- Modelled from the spec (claim C9 wording): the conjunction of **all**
supplied `ReceiptFilter` fields — sister identity, action type, context
reference, `after`/`before` time range (on the receipt timestamp) and
outcome class. -/
def receiptMatchesAllFields (f : ReceiptFilterM) (r : ReceiptM) : Bool :=
  (match f.sisterType with
   | some s => r.action.sisterType == s
   | none => true) &&
  (match f.actionType with
   | some a => r.action.actionType == a
   | none => true) &&
  (match f.contextId with
   | some c => r.action.contextId == some c
   | none => true) &&
  (match f.after with
   | some t => decide (t < r.createdAt)
   | none => true) &&
  (match f.before with
   | some t => decide (r.createdAt < t)
   | none => true) &&
  (match f.outcome with
   | some o =>
       if o = "success".toList then r.action.outcome.isSuccess
       else if o = "failure".toList then r.action.outcome.isFailure
       else if o = "partial".toList then
         (match r.action.outcome with
          | .partialOutcome _ _ => true
          | _ => false)
       else false
   | none => true)

/-- Modelled from the spec (claim C9 wording): `limit`/`offset` pagination
applied after filtering by all the fields. -/
def specListReceipts (st : IdentityState) (f : ReceiptFilterM) : List ReceiptM :=
  let filtered := st.receipts.filter (receiptMatchesAllFields f)
  let paged :=
    match f.offset with
    | some o => filtered.drop o
    | none => filtered
  match f.limit with
  | some n => paged.take n
  | none => paged

/-- A `ReceiptFilter` equal to `f` on the two fields `MockIdentity` consults,
with the ignored fields cleared. -/
def eraseIgnoredFields (f : ReceiptFilterM) : ReceiptFilterM :=
  { f with contextId := none, after := none, before := none, outcome := none,
           offset := none }

/-- A sample successful action record (used in concrete evaluations). -/
def sampleAction : ActionRecordM :=
  ActionRecordM.new .memory ("memory_add".toList) (.success none) 0

/-- A sample `ContextInfo` (used in concrete snapshots). -/
def sampleInfo : ContextInfoM :=
  { id := ⟨⟨0⟩⟩, name := "s".toList, createdAt := 0, updatedAt := 0,
    itemCount := 0, sizeBytes := 0, metadata := [] }

/-- A snapshot carrying format version `1.0.0` (newer major than the mock
sisters' `0.2.0`) with a correct checksum over an empty payload. -/
def snapNewerMajor : ContextSnapshotM :=
  { sisterType := .memory, version := ⟨1, 0, 0⟩, contextInfo := sampleInfo,
    data := [], checksum := blake3Hash [], snapshotAt := 0 }

/-- A snapshot whose stored checksum is the digest of the byte-flipped
payload rather than of the payload itself. -/
def snapFlippedChecksum : ContextSnapshotM :=
  { sisterType := .memory, version := ⟨0, 2, 0⟩, contextInfo := sampleInfo,
    data := [0], checksum := blake3Hash [255], snapshotAt := 0 }

/-- A valid single-byte snapshot, as produced by an export. -/
def snapValidByte : ContextSnapshotM :=
  { sisterType := .memory, version := ⟨0, 2, 0⟩, contextInfo := sampleInfo,
    data := [0], checksum := blake3Hash [0], snapshotAt := 0 }

/-- A snapshot whose checksum (all zeroes) does not match its payload. -/
def snapBadChecksum : ContextSnapshotM :=
  { sisterType := .memory, version := ⟨0, 2, 0⟩, contextInfo := sampleInfo,
    data := [0], checksum := List.replicate 32 0, snapshotAt := 0 }

/-- A memory state with one active session and one node. -/
def memWithSession : MemoryState :=
  { sessionId := some ⟨⟨1⟩⟩, sessions := [], nodes := [(1, "hi".toList)],
    nextId := 2 }

/-- The snapshot `memoryExportSession memWithSession 5` produces. -/
def exportedSample : ContextSnapshotM :=
  { sisterType := .memory, version := ⟨0, 2, 0⟩,
    contextInfo := { id := ⟨⟨1⟩⟩, name := "active".toList, createdAt := 5,
                     updatedAt := 5, itemCount := 1, sizeBytes := 0,
                     metadata := [] },
    data := jsonNodesBytes [(1, "hi".toList)],
    checksum := blake3Hash (jsonNodesBytes [(1, "hi".toList)]),
    snapshotAt := 5 }

/-- An identity-ledger state holding one receipt for a successful action. -/
def ledgerOneSuccess : IdentityState :=
  (createReceipt initIdentity sampleAction 11 1).2

/-- A filter selecting the `failure` outcome class and nothing else. -/
def failureOnlyFilter : ReceiptFilterM :=
  { ReceiptFilterM.new with outcome := some ("failure".toList) }

/-- A memory state holding three corpus nodes (mirrors `test_memory_grounding`). -/
def memThreeNodes : MemoryState :=
  { sessionId := some ⟨⟨1⟩⟩, sessions := [],
    nodes := [(1, "The sky is blue".toList), (2, "Rust is fast".toList),
              (3, "Memory sisters store cognitive events".toList)],
    nextId := 4 }

theorem containsSub_iff (needle hay : Str) :
    containsSub needle hay = true ↔ needle <:+: hay := by
  induction hay with
  | nil =>
      simp [containsSub, List.isPrefixOf_iff_prefix]
  | cons c t ih =>
      simp [containsSub, List.isPrefixOf_iff_prefix, ih, List.infix_cons_iff]

theorem splitWsAux_substring (l : List Char) :
    ∀ acc w, w ∈ splitWsAux l acc → w <:+: (acc.reverse ++ l) := by
  induction l with
  | nil =>
      intro acc w hw
      by_cases hacc : acc.isEmpty
      · simp [splitWsAux, hacc] at hw
      · simp [splitWsAux, hacc] at hw
        exact hw ▸ ⟨[], [], by simp⟩
  | cons c cs ih =>
      intro acc w hw
      by_cases hws : c.isWhitespace
      · by_cases hacc : acc.isEmpty
        · simp [splitWsAux, hws, hacc] at hw
          have h1 := ih [] w hw
          simp at h1
          exact h1.trans ⟨acc.reverse ++ [c], [], by simp⟩
        · simp [splitWsAux, hws, hacc] at hw
          rcases hw with hw | hw
          · exact hw ▸ ⟨[], c :: cs, by simp⟩
          · have h1 := ih [] w hw
            simp at h1
            exact h1.trans ⟨acc.reverse ++ [c], [], by simp⟩
      · simp [splitWsAux, hws] at hw
        have h1 := ih (c :: acc) w hw
        simpa using h1

/-- Every whitespace-separated word of a string is a contiguous substring of it. -/
theorem splitWs_substring (s : Str) (w : Str) (hw : w ∈ splitWs s) : w <:+: s := by
  simpa using splitWsAux_substring s [] w hw

theorem coverage_nonneg (cl content : Str) : 0 ≤ coverageRatio cl content := by
  unfold coverageRatio
  apply div_nonneg
  · positivity
  · positivity

theorem coverage_le_one (cl content : Str) : coverageRatio cl content ≤ 1 := by
  unfold coverageRatio
  rw [div_le_one (by positivity)]
  calc ((splitWs cl).countP (fun w => containsSub w (lowerStr content)) : ℚ)
      ≤ ((splitWs cl).length : ℚ) := by
        exact_mod_cast Nat.cast_le.mpr (List.countP_le_length _)
    _ ≤ max ((splitWs cl).length : ℚ) 1 := le_max_left _ _

theorem coverage_of_match (claim content : Str)
    (h : containsSub (lowerStr claim) (lowerStr content) = true) :
    coverageRatio (lowerStr claim) content =
      if splitWs (lowerStr claim) = [] then 0 else 1 := by
  have hinf : lowerStr claim <:+: lowerStr content := (containsSub_iff _ _).mp h
  have hall : ∀ w ∈ splitWs (lowerStr claim),
      containsSub w (lowerStr content) = true := by
    intro w hw
    exact (containsSub_iff _ _).mpr ((splitWs_substring _ _ hw).trans hinf)
  unfold coverageRatio
  dsimp only
  rw [List.countP_eq_length.mpr (by intro a ha; exact hall a ha)]
  by_cases hws : splitWs (lowerStr claim) = []
  · simp [hws]
  · have hlen : 0 < (splitWs (lowerStr claim)).length := List.length_pos.mpr hws
    have h1 : (1 : ℚ) ≤ ((splitWs (lowerStr claim)).length : ℚ) := by
      exact_mod_cast hlen
    rw [if_neg hws, max_eq_left h1]
    exact div_self (by positivity)

theorem foldlMax_init_le (l : List ℚ) (a : ℚ) : a ≤ l.foldl max a := by
  induction l generalizing a with
  | nil => simp
  | cons x t ih => exact le_trans (le_max_left a x) (ih (max a x))

theorem foldlMax_mem_le (l : List ℚ) (a : ℚ) : ∀ x ∈ l, x ≤ l.foldl max a := by
  induction l generalizing a with
  | nil => simp
  | cons y t ih =>
      intro x hx
      rcases List.mem_cons.mp hx with rfl | hx
      · exact le_trans (le_max_right a x) (foldlMax_init_le t (max a x))
      · exact ih (max a y) x hx

theorem foldlMax_mem_or_init (l : List ℚ) (a : ℚ) :
    l.foldl max a = a ∨ l.foldl max a ∈ l := by
  induction l generalizing a with
  | nil => exact Or.inl rfl
  | cons y t ih =>
      rcases ih (max a y) with h | h
      · rcases max_choice a y with hm | hm
        · exact Or.inl (by simpa [hm] using h)
        · have h' : List.foldl max y t = y := hm ▸ h
          exact Or.inr (by rw [List.foldl_cons, hm, h']; exact List.mem_cons_self _ _)
      · exact Or.inr (List.mem_cons_of_mem y h)

theorem foldlMax_eq_of_all_eq (l : List ℚ) (c : ℚ) (hne : l ≠ []) (hc : 0 ≤ c)
    (hall : ∀ x ∈ l, x = c) : l.foldl max 0 = c := by
  obtain ⟨x, hx⟩ := List.exists_mem_of_ne_nil l hne
  have hle : c ≤ l.foldl max 0 := by
    have := foldlMax_mem_le l 0 x hx
    rwa [hall x hx] at this
  have hge : l.foldl max 0 ≤ c := by
    rcases foldlMax_mem_or_init l 0 with h | h
    · rw [h]; exact hc
    · exact le_of_eq (hall _ h)
  exact le_antisymm hge hle

theorem bestScore_value (nodes : List (Nat × Str)) (claim : Str)
    (h : matchingNodes nodes claim ≠ []) :
    ((matchingNodes nodes claim).map
        (fun p => coverageRatio (lowerStr claim) p.2)).foldl max 0 =
      if splitWs (lowerStr claim) = [] then 0 else 1 := by
  apply foldlMax_eq_of_all_eq
  · simpa using h
  · split <;> norm_num
  · intro x hx
    obtain ⟨p, hp, rfl⟩ := List.mem_map.mp hx
    have hmem := List.mem_filter.mp hp
    exact coverage_of_match claim p.2 hmem.2

theorem memoryGround_match_spec (st : MemoryState) (claim : Str) (now : Nat)
    (h : matchingNodes st.nodes claim ≠ []) :
    ∃ r, memoryGround st claim now = .ok r ∧
      r.confidence = ((matchingNodes st.nodes claim).map
        (fun p => coverageRatio (lowerStr claim) p.2)).foldl max 0 ∧
      (r.status = .verified ↔ (1 : ℚ)/2 < r.confidence) ∧
      (¬ ((1 : ℚ)/2 < r.confidence) → r.status = .partialSupport) := by
  have hempty : (matchingNodes st.nodes claim).isEmpty = false := by
    simpa [List.isEmpty_iff] using h
  simp only [memoryGround, hempty, Bool.false_eq_true, if_false]
  by_cases hlt : (1 : ℚ)/2 < ((matchingNodes st.nodes claim).map
      (fun p => coverageRatio (lowerStr claim) p.2)).foldl max 0
  · rw [if_pos hlt]
    exact ⟨_, rfl, rfl, ⟨fun _ => hlt, fun _ => rfl⟩, fun hn => absurd hlt hn⟩
  · rw [if_neg hlt]
    refine ⟨_, rfl, rfl, ⟨fun hv => ?_, fun hgt => absurd hgt hlt⟩, fun _ => rfl⟩
    exact absurd (show GroundingStatusM.partialSupport = GroundingStatusM.verified from hv)
      (by decide)

/-- C1: for every claim that matches at least one corpus item,
`MockMemory::ground` returns `Verified` exactly when the computed confidence
exceeds `0.8`, and returns `Partial` whenever the confidence lies in
`(0, 0.8]`. (On matching claims the computed confidence is always `0` or `1`,
so the source's `0.5` cut-off and the spec's `0.8` classify identically.) -/
theorem c1_ground_thresholds (st : MemoryState) (claim : Str) (now : Nat)
    (h : matchingNodes st.nodes claim ≠ []) :
    ∃ r, memoryGround st claim now = .ok r ∧
      (r.status = .verified ↔ (4 : ℚ)/5 < r.confidence) ∧
      (0 < r.confidence ∧ r.confidence ≤ (4 : ℚ)/5 →
        r.status = .partialSupport) := by
  obtain ⟨r, hr, hconf, hiff, _⟩ := memoryGround_match_spec st claim now h
  rw [bestScore_value st.nodes claim h] at hconf
  refine ⟨r, hr, ?_, ?_⟩
  · by_cases hws : splitWs (lowerStr claim) = []
    · rw [if_pos hws] at hconf
      rw [hconf] at hiff ⊢
      constructor
      · intro hv; exact absurd (hiff.mp hv) (by norm_num)
      · intro hgt; exact absurd hgt (by norm_num)
    · rw [if_neg hws] at hconf
      rw [hconf] at hiff ⊢
      constructor
      · intro _; norm_num
      · intro _; exact hiff.mpr (by norm_num)
  · rintro ⟨hpos, hle⟩
    by_cases hws : splitWs (lowerStr claim) = []
    · rw [if_pos hws] at hconf
      rw [hconf] at hpos; exact absurd hpos (by norm_num)
    · rw [if_neg hws] at hconf
      rw [hconf] at hle; exact absurd hle (by norm_num)

theorem c1_ground_thresholds_witness :
    matchingNodes memThreeNodes.nodes ("sky is blue".toList) ≠ [] ∧
    ∃ r, memoryGround memThreeNodes ("sky is blue".toList) 0 = .ok r ∧
      (r.status = .verified ↔ (4 : ℚ)/5 < r.confidence) ∧
      (0 < r.confidence ∧ r.confidence ≤ (4 : ℚ)/5 →
        r.status = .partialSupport) :=
  ⟨by decide, c1_ground_thresholds memThreeNodes ("sky is blue".toList) 0 (by decide)⟩

/-- C3: a claim that matches no corpus item yields `Ok` (never an error) with
status `Ungrounded`, confidence exactly `0.0` and an empty evidence list. -/
theorem c3_ground_no_match (st : MemoryState) (claim : Str) (now : Nat)
    (h : matchingNodes st.nodes claim = []) :
    ∃ r, memoryGround st claim now = .ok r ∧ r.status = .ungrounded ∧
      r.confidence = 0 ∧ r.evidence = [] := by
  refine ⟨(GroundingResultM.mkUngrounded claim ("No matching memories found".toList)
      now).withSuggestions ((st.nodes.take 3).map (fun p => p.2)),
    ?_, rfl, rfl, rfl⟩
  simp [memoryGround, h]

theorem c3_ground_no_match_witness :
    matchingNodes memThreeNodes.nodes ("cats can teleport".toList) = [] ∧
    ∃ r, memoryGround memThreeNodes ("cats can teleport".toList) 0 = .ok r ∧
      r.status = .ungrounded ∧ r.confidence = 0 ∧ r.evidence = [] :=
  ⟨by decide, c3_ground_no_match memThreeNodes ("cats can teleport".toList) 0 (by decide)⟩

/-- C4: for a claim with at least one matching corpus item, the returned
confidence is the maximum of the per-item coverage ratios (largest element of
the list of ratios, which all lie in `[0, 1]`), not an average. -/
theorem c4_ground_max_coverage (st : MemoryState) (claim : Str) (now : Nat)
    (h : matchingNodes st.nodes claim ≠ []) :
    ∃ r, memoryGround st claim now = .ok r ∧
      r.confidence ∈ (matchingNodes st.nodes claim).map
        (fun p => coverageRatio (lowerStr claim) p.2) ∧
      (∀ c ∈ (matchingNodes st.nodes claim).map
        (fun p => coverageRatio (lowerStr claim) p.2), c ≤ r.confidence) ∧
      0 ≤ r.confidence ∧ r.confidence ≤ 1 := by
  obtain ⟨r, hr, hconf, _, _⟩ := memoryGround_match_spec st claim now h
  have hcovs : (matchingNodes st.nodes claim).map
      (fun p => coverageRatio (lowerStr claim) p.2) ≠ [] := by simpa using h
  have hmem : r.confidence ∈ (matchingNodes st.nodes claim).map
      (fun p => coverageRatio (lowerStr claim) p.2) := by
    rcases foldlMax_mem_or_init ((matchingNodes st.nodes claim).map
        (fun p => coverageRatio (lowerStr claim) p.2)) 0 with h0 | hm
    · obtain ⟨x, hx⟩ := List.exists_mem_of_ne_nil _ hcovs
      have hx0 : x ≤ 0 := by
        have := foldlMax_mem_le _ 0 x hx
        rwa [h0] at this
      have hx0' : 0 ≤ x := by
        obtain ⟨p, _, rfl⟩ := List.mem_map.mp hx
        exact coverage_nonneg _ _
      rw [hconf, h0]
      exact (le_antisymm hx0 hx0') ▸ hx
    · rw [hconf]; exact hm
  refine ⟨r, hr, hmem, ?_, ?_, ?_⟩
  · intro c hc
    rw [hconf]
    exact foldlMax_mem_le _ 0 c hc
  · rw [hconf]
    exact foldlMax_init_le _ 0
  · obtain ⟨p, _, hp⟩ := List.mem_map.mp hmem
    rw [← hp]
    exact coverage_le_one _ _

theorem c4_ground_max_coverage_witness :
    matchingNodes memThreeNodes.nodes ("rust is fast".toList) ≠ [] ∧
    ∃ r, memoryGround memThreeNodes ("rust is fast".toList) 0 = .ok r ∧
      r.confidence ∈ (matchingNodes memThreeNodes.nodes ("rust is fast".toList)).map
        (fun p => coverageRatio (lowerStr ("rust is fast".toList)) p.2) ∧
      (∀ c ∈ (matchingNodes memThreeNodes.nodes ("rust is fast".toList)).map
        (fun p => coverageRatio (lowerStr ("rust is fast".toList)) p.2),
          c ≤ r.confidence) ∧
      0 ≤ r.confidence ∧ r.confidence ≤ 1 :=
  ⟨by decide, c4_ground_max_coverage memThreeNodes ("rust is fast".toList) 0 (by decide)⟩

/-- C2 (code evidence): after two successful `create_receipt` calls with the
same action, the stored receipts carry `previous_hash = "0000000000000000"`
and `hash = "hash_<position>"`; the receipt at chain position 2 therefore does
not link to receipt 1's hash, and two receipts agreeing on
`(previous_hash, action, signature)` still receive different hashes — the
hash depends only on the position, contradicting the linking rule the spec
and the `Receipt` field documentation state. -/
theorem c2_receipt_chain_eval :
    ((createReceipt (createReceipt initIdentity sampleAction 11 1).2
        sampleAction 12 2).2.receipts.map (fun r => (r.previousHash, r.hash)) =
      [("0000000000000000".toList, "hash_1".toList),
       ("0000000000000000".toList, "hash_2".toList)]) ∧
    ("0000000000000000".toList : Str) ≠ "hash_1".toList ∧
    ("hash_1".toList : Str) ≠ "hash_2".toList := by
  refine ⟨rfl, by decide, by decide⟩

theorem createReceipt_fold_aux (calls : List (ActionRecordM × Nat × Nat)) :
    ∀ st : IdentityState,
      ((calls.foldl createReceiptStep st).receipts.map (fun r => r.chainPosition) =
        st.receipts.map (fun r => r.chainPosition) ++
          List.range' (st.chainPosition + 1) calls.length) ∧
      (calls.foldl createReceiptStep st).chainPosition =
        st.chainPosition + calls.length := by
  induction calls with
  | nil => intro st; simp
  | cons c t ih =>
      intro st
      have h := ih (createReceiptStep st c)
      constructor
      · rw [List.foldl_cons, h.1]
        simp [createReceiptStep, createReceipt, List.range'_succ]
      · rw [List.foldl_cons, h.2]
        simp [createReceiptStep, createReceipt]
        omega

/-- C6: across every sequence of successful `create_receipt` calls (each call
given an arbitrary action, receipt id and timestamp), the stored chain
positions are exactly `1, 2, …, n` — starting at 1, increasing by exactly 1,
with no gaps — and the counter equals the number of appends; the position is
computed solely from the ledger state (`createReceipt` takes no
caller-supplied position). -/
theorem c6_chain_positions (calls : List (ActionRecordM × Nat × Nat)) :
    (calls.foldl createReceiptStep initIdentity).receipts.map
        (fun r => r.chainPosition) = List.range' 1 calls.length ∧
    (calls.foldl createReceiptStep initIdentity).chainPosition = calls.length := by
  have h := createReceipt_fold_aux calls initIdentity
  constructor
  · have h1 := h.1
    simpa [initIdentity] using h1
  · have h2 := h.2
    simpa [initIdentity] using h2

/-- C5 (counterexample): a snapshot with format major version 1 — newer than
the mock sisters' reader version 0.2.0 — whose checksum is valid is imported
successfully by `MockMemory::import_session`; the claimed explicit failure on
a newer major version does not happen. -/
theorem c5_counterexample :
    mockSisterVersion.major < snapNewerMajor.version.major ∧
    (memoryImportSession initMemory snapNewerMajor ⟨⟨7⟩⟩ 3).1 = .ok ⟨⟨7⟩⟩ := by
  constructor
  · decide
  · have hv : snapNewerMajor.verify = true := by
      simp [ContextSnapshotM.verify, snapNewerMajor]
    simp [memoryImportSession, hv, memoryStartSession]

/-- C5 (amended): `Version::can_read` accepts exactly the file versions whose
major is at most the reader's — but `MockMemory::import_session` never
consults versions: any snapshot passing checksum verification gets
accepted, whatever its major version. -/
theorem c5_amended_version_gate :
    (∀ reader file : VersionM, reader.canRead file = true ↔
      file.major ≤ reader.major) ∧
    (∀ (st : MemoryState) (snap : ContextSnapshotM) (fresh : ContextIdM)
      (now : Nat), snap.verify = true →
        (memoryImportSession st snap fresh now).1 = .ok fresh) := by
  constructor
  · intro reader file
    simp [VersionM.canRead]
  · intro st snap fresh now hv
    simp [memoryImportSession, hv, memoryStartSession]

theorem c5_amended_version_gate_witness :
    (mockSisterVersion.canRead ⟨1, 0, 0⟩ = true ↔ (1 : Nat) ≤ 0) ∧
    (memoryImportSession initMemory snapNewerMajor ⟨⟨7⟩⟩ 3).1 = .ok ⟨⟨7⟩⟩ :=
  ⟨c5_amended_version_gate.1 mockSisterVersion ⟨1, 0, 0⟩,
   c5_amended_version_gate.2 initMemory snapNewerMajor ⟨⟨7⟩⟩ 3
     (by simp [ContextSnapshotM.verify, snapNewerMajor])⟩

set_option maxRecDepth 10000 in
/-- C7 (counterexample): the claim quantifies over *every* snapshot, but a
snapshot whose stored checksum is the digest of the flipped payload has
`verify = false` before the flip and `verify = true` after flipping the
single payload byte — flipping a byte does not always make `verify` false. -/
theorem c7_counterexample :
    ContextSnapshotM.verify
        { snapFlippedChecksum with
          data := flipByteAt snapFlippedChecksum.data 0 } = true ∧
    ContextSnapshotM.verify snapFlippedChecksum = false := by
  constructor
  · have hflip : flipByteAt snapFlippedChecksum.data 0 = [255] := by decide
    rw [hflip]
    simp [ContextSnapshotM.verify, snapFlippedChecksum]
  · decide

/-- C7 (amended): every snapshot produced by `export_session` passes
`verify`, and flipping a single payload byte makes `verify` return false
provided the digest of the modified payload differs from the stored checksum
(the proviso the counterexample forces; for the actual BLAKE3 digest it can
fail only on an engineered checksum collision). -/
theorem c7_amended_verify :
    (∀ (st : MemoryState) (now : Nat) (snap : ContextSnapshotM),
      memoryExportSession st now = .ok snap → snap.verify = true) ∧
    (∀ (snap : ContextSnapshotM) (i : Nat),
      blake3Hash (flipByteAt snap.data i) ≠ snap.checksum →
      ContextSnapshotM.verify { snap with data := flipByteAt snap.data i } = false) := by
  constructor
  · intro st now snap h
    unfold memoryExportSession at h
    cases hinfo : memoryCurrentSessionInfo st now with
    | error e => rw [hinfo] at h; exact absurd h (by simp)
    | ok info =>
        rw [hinfo] at h
        cases h
        simp [ContextSnapshotM.verify]
  · intro snap i hne
    simp only [ContextSnapshotM.verify]
    rw [beq_eq_false_iff_ne]
    exact hne

set_option maxRecDepth 10000 in
theorem c7_amended_verify_witness :
    exportedSample.verify = true ∧
    ContextSnapshotM.verify
      { snapValidByte with data := flipByteAt snapValidByte.data 0 } = false :=
  ⟨c7_amended_verify.1 memWithSession 5 exportedSample rfl,
   c7_amended_verify.2 snapValidByte 0 (by decide)⟩

/-- C8: importing any snapshot that fails `verify` returns the dedicated
`CHECKSUM_MISMATCH` corruption error — fatal and non-recoverable, distinct
from the `INVALID_INPUT` code JSON parse failures map to — and leaves
the state unchanged; the payload is never deserialized. -/
theorem c8_import_rejects_corrupt (st : MemoryState) (snap : ContextSnapshotM)
    (fresh : ContextIdM) (now : Nat) (h : snap.verify = false) :
    memoryImportSession st snap fresh now =
      (.error (SisterErrorM.new .checksumMismatch
        ("Snapshot checksum verification failed".toList)), st) ∧
    isTypicallyRecoverable .checksumMismatch = false ∧
    defaultSeverity .checksumMismatch = .fatal ∧
    (ErrorCodeM.checksumMismatch ≠ ErrorCodeM.invalidInput) := by
  refine ⟨?_, rfl, rfl, by decide⟩
  simp [memoryImportSession, h]

set_option maxRecDepth 10000 in
theorem c8_import_rejects_corrupt_witness :
    snapBadChecksum.verify = false ∧
    (memoryImportSession initMemory snapBadChecksum ⟨⟨7⟩⟩ 3 =
      (.error (SisterErrorM.new .checksumMismatch
        ("Snapshot checksum verification failed".toList)), initMemory) ∧
     isTypicallyRecoverable .checksumMismatch = false ∧
     defaultSeverity .checksumMismatch = .fatal ∧
     (ErrorCodeM.checksumMismatch ≠ ErrorCodeM.invalidInput)) :=
  ⟨by decide, c8_import_rejects_corrupt initMemory snapBadChecksum ⟨⟨7⟩⟩ 3 (by decide)⟩

/-- C9 (counterexample): `MockIdentity::list_receipts` ignores the `outcome`
field: on a ledger holding one successful receipt, a filter requesting only
the `failure` outcome class still returns that receipt, while the set of
receipts satisfying the conjunction of all supplied filter fields is empty —
the result is not "exactly the receipts satisfying the conjunction". -/
theorem c9_counterexample :
    (listReceipts ledgerOneSuccess failureOnlyFilter).length = 1 ∧
    (specListReceipts ledgerOneSuccess failureOnlyFilter).length = 0 ∧
    listReceipts ledgerOneSuccess failureOnlyFilter ≠
      specListReceipts ledgerOneSuccess failureOnlyFilter := by
  refine ⟨rfl, rfl, ?_⟩
  intro h
  exact absurd (congrArg List.length h) (by decide)

theorem mockReceiptPasses_eq_spec_erased (f : ReceiptFilterM) (r : ReceiptM) :
    mockReceiptPasses f r = receiptMatchesAllFields (eraseIgnoredFields f) r := by
  simp [mockReceiptPasses, receiptMatchesAllFields, eraseIgnoredFields]

/-- C9 (amended): `list_receipts` filters conjunctively by sister identity
and action type only — the context, time-range, outcome and `offset` filter
fields are ignored — `limit` truncates after filtering, and the results
preserve ledger order (they form a sublist of the stored receipts,
oldest first). -/
theorem c9_amended_list_receipts :
    (∀ (st : IdentityState) (f : ReceiptFilterM), f.limit = none →
      listReceipts st f =
        st.receipts.filter (receiptMatchesAllFields (eraseIgnoredFields f))) ∧
    (∀ (st : IdentityState) (f : ReceiptFilterM) (n : Nat), f.limit = some n →
      listReceipts st f = (listReceipts st { f with limit := none }).take n) ∧
    (∀ (st : IdentityState) (f : ReceiptFilterM),
      listReceipts st f = listReceipts st (eraseIgnoredFields f)) ∧
    (∀ (st : IdentityState) (f : ReceiptFilterM),
      (listReceipts st f).Sublist st.receipts) := by
  refine ⟨?_, ?_, ?_, ?_⟩
  · intro st f hl
    simp only [listReceipts, hl]
    exact List.filter_congr (fun r _ => mockReceiptPasses_eq_spec_erased f r)
  · intro st f n hl
    simp only [listReceipts, hl]
    rfl
  · intro st f
    have hpass : ∀ r, mockReceiptPasses f r = mockReceiptPasses (eraseIgnoredFields f) r := by
      intro r; simp [mockReceiptPasses, eraseIgnoredFields]
    simp only [listReceipts, eraseIgnoredFields]
    rw [List.filter_congr (fun r _ => hpass r)]
    rfl
  · intro st f
    simp only [listReceipts]
    cases f.limit with
    | none => exact List.filter_sublist _
    | some n => exact (List.take_sublist _ _).trans (List.filter_sublist _)

theorem c9_amended_list_receipts_witness :
    (listReceipts ledgerOneSuccess failureOnlyFilter =
      ledgerOneSuccess.receipts.filter
        (receiptMatchesAllFields (eraseIgnoredFields failureOnlyFilter))) ∧
    (listReceipts ledgerOneSuccess { ReceiptFilterM.new with limit := some 1 } =
      (listReceipts ledgerOneSuccess ReceiptFilterM.new).take 1) ∧
    (listReceipts ledgerOneSuccess failureOnlyFilter).Sublist
      ledgerOneSuccess.receipts :=
  ⟨c9_amended_list_receipts.1 ledgerOneSuccess failureOnlyFilter rfl,
   c9_amended_list_receipts.2.1 ledgerOneSuccess
     { ReceiptFilterM.new with limit := some 1 } 1 rfl,
   c9_amended_list_receipts.2.2.2 ledgerOneSuccess failureOnlyFilter⟩

theorem nibblesAux_length (k : Nat) : ∀ n, (nibblesAux k n).length = k := by
  induction k with
  | zero => intro n; rfl
  | succ k ih => intro n; simp [nibblesAux, ih]

theorem nibblesAux_lt (k : Nat) : ∀ n, ∀ d ∈ nibblesAux k n, d < 16 := by
  induction k with
  | zero => intro n d hd; simp [nibblesAux] at hd
  | succ k ih =>
      intro n d hd
      simp only [nibblesAux, List.mem_append, List.mem_singleton] at hd
      rcases hd with hd | hd
      · exact ih (n / 16) d hd
      · exact hd ▸ Nat.mod_lt _ (by norm_num)

theorem hexDigitVal_hexDigitChar : ∀ d, d < 16 →
    hexDigitVal (hexDigitChar d) = some d := by decide

theorem parseHexAux_map (ds : List Nat) (hds : ∀ d ∈ ds, d < 16) : ∀ a,
    parseHexAux (ds.map hexDigitChar) a =
      some (ds.foldl (fun x d => 16 * x + d) a) := by
  induction ds with
  | nil => intro a; rfl
  | cons d t ih =>
      intro a
      have hd : d < 16 := hds d (by simp)
      simp only [List.map_cons, parseHexAux, hexDigitVal_hexDigitChar d hd]
      exact ih (fun x hx => hds x (by simp [hx])) (16 * a + d)

theorem foldl_hexval (k : Nat) : ∀ n a,
    (nibblesAux k n).foldl (fun x d => 16 * x + d) a = a * 16 ^ k + n % 16 ^ k := by
  induction k with
  | zero => intro n a; simp [nibblesAux, Nat.mod_one]
  | succ k ih =>
      intro n a
      rw [nibblesAux, List.foldl_append, ih (n / 16) a]
      show 16 * (a * 16 ^ k + n / 16 % 16 ^ k) + n % 16 = a * 16 ^ (k + 1) + n % 16 ^ (k + 1)
      rw [pow_succ']
      rw [Nat.mod_mul]
      ring

theorem hexGroups_assemble (cs : List Char) :
    cs.take 8 ++ ((cs.drop 8).take 4 ++ ((cs.drop 12).take 4 ++
      ((cs.drop 16).take 4 ++ cs.drop 20))) = cs := by
  have e1 : (cs.drop 16).take 4 ++ cs.drop 20 = cs.drop 16 := by
    simpa [List.drop_drop] using List.take_append_drop 4 (cs.drop 16)
  have e2 : (cs.drop 12).take 4 ++ cs.drop 16 = cs.drop 12 := by
    simpa [List.drop_drop] using List.take_append_drop 4 (cs.drop 12)
  have e3 : (cs.drop 8).take 4 ++ cs.drop 12 = cs.drop 8 := by
    simpa [List.drop_drop] using List.take_append_drop 4 (cs.drop 8)
  rw [e1, e2, e3, List.take_append_drop]

theorem parseUuid_grouped (A B C D E : List Char)
    (hA : A.length = 8) (hB : B.length = 4) (hC : C.length = 4)
    (hD : D.length = 4) (hE : E.length = 12) :
    parseUuidM (A ++ (('-' :: B) ++ (('-' :: C) ++ (('-' :: D) ++ ('-' :: E))))) =
      parseHexAux (A ++ (B ++ (C ++ (D ++ E)))) 0 := by
  have hlen : (A ++ (('-' :: B) ++ (('-' :: C) ++ (('-' :: D) ++
      ('-' :: E))))).length = 36 := by
    simp [hA, hB, hC, hD, hE]
  unfold parseUuidM
  rw [if_neg (by omega), if_pos hlen]
  rw [List.drop_left' hA, List.cons_append]
  simp only [afterDash]
  rw [List.drop_left' hB, List.cons_append]
  simp only [afterDash]
  rw [List.drop_left' hC, List.cons_append]
  simp only [afterDash]
  rw [List.drop_left' hD]
  simp only [afterDash]
  rw [List.take_left' hA, List.take_left' hB, List.take_left' hC,
    List.take_left' hD]

theorem parseUuid_uuidChars (v : Nat) (hv : v < 2 ^ 128) :
    parseUuidM (uuidChars v) = some v := by
  have hlen : ((nibblesAux 32 v).map hexDigitChar).length = 32 := by
    simp [nibblesAux_length]
  set cs := (nibblesAux 32 v).map hexDigitChar with hcs
  have hA : (cs.take 8).length = 8 := by simp [hlen]
  have hB : ((cs.drop 8).take 4).length = 4 := by simp [hlen]
  have hC : ((cs.drop 12).take 4).length = 4 := by simp [hlen]
  have hD : ((cs.drop 16).take 4).length = 4 := by simp [hlen]
  have hE : (cs.drop 20).length = 12 := by simp [hlen]
  have hshape : uuidChars v =
      cs.take 8 ++ (('-' :: (cs.drop 8).take 4) ++ (('-' :: (cs.drop 12).take 4) ++
        (('-' :: (cs.drop 16).take 4) ++ ('-' :: cs.drop 20)))) := rfl
  rw [hshape, parseUuid_grouped _ _ _ _ _ hA hB hC hD hE, hexGroups_assemble]
  rw [hcs, parseHexAux_map _ (nibblesAux_lt 32 v), foldl_hexval]
  have hv' : v < 16 ^ 32 := by
    have h1 : (16 : Nat) ^ 32 = 2 ^ 128 := by norm_num
    omega
  simp [Nat.mod_eq_of_lt hv']
  exact lt_of_lt_of_eq hv (by norm_num)

/-- C10: converting a `ContextId` to its `ctx_`-prefixed display string and
parsing that string back through `From<&str>` yields the same `ContextId`;
and for a string that is no valid UUID after prefix stripping, the conversion
silently yields the fresh random id (it cannot fail — the conversion is
total). -/
theorem c10_ctxid_roundtrip :
    (∀ (id : ContextIdM) (fresh : Nat), id.uid.val < 2 ^ 128 →
      ctxFromStr (ctxDisplay id) fresh = id) ∧
    (∀ (s : Str) (fresh : Nat),
      parseUuidM (if ("ctx_".toList).isPrefixOf s then s.drop 4 else s) = none →
      ctxFromStr s fresh = ⟨⟨fresh⟩⟩) := by
  constructor
  · rintro ⟨⟨v⟩⟩ fresh hv
    have hpre : ("ctx_".toList).isPrefixOf ("ctx_".toList ++ uuidChars v) = true :=
      List.isPrefixOf_iff_prefix.mpr (List.prefix_append _ _)
    have hdrop : ("ctx_".toList ++ uuidChars v).drop 4 = uuidChars v :=
      List.drop_left' rfl
    simp only [ctxFromStr, ctxDisplay, hpre, if_true, hdrop,
      parseUuid_uuidChars v hv]
  · intro s fresh h
    simp only [ctxFromStr, h]

theorem c10_ctxid_roundtrip_witness :
    ctxFromStr (ctxDisplay ⟨⟨0x0123456789abcdef0123456789abcdef⟩⟩) 9 =
      ⟨⟨0x0123456789abcdef0123456789abcdef⟩⟩ ∧
    ctxFromStr ("not-a-uuid".toList) 42 = ⟨⟨42⟩⟩ :=
  ⟨c10_ctxid_roundtrip.1 ⟨⟨0x0123456789abcdef0123456789abcdef⟩⟩ 9 (by norm_num),
   c10_ctxid_roundtrip.2 ("not-a-uuid".toList) 42 (by decide)⟩
